import Mathlib

/-!
# Verification of the dev-mesh dashboard status-aggregation engine

Shallow embedding of `get_status` from `src/dashboard.py` (the status
reconciler) and proofs about it.  Python strings are modelled as `List Char`
(`PyStr`), Python dicts built by repeated assignment as association lists with
replace-on-duplicate insertion (`dinsert`), JSON objects fetched from the admin
API as structures whose every sub-field is optional (`Option`), mirroring the
`dict.get` accesses of the source.  The one plain subscript of the source,
`u["address"]`, is modelled as a fallible access, so `get_status` returns
`Except PyErr AggregatedStatus`.

Modelling notes, fixed once here:
* `os.path.exists` is a filesystem probe; the filesystem is a parameter
  `fs : List PyStr` listing the existing paths.  `os.path.exists ""` is
  `False` in Python regardless of the filesystem, which the model encodes.
* `caddy_get(...) or default` collapses both a failed fetch (`None`) and a
  falsy fetched value to the default; since every default used by the source
  (`[]`, `{}`, `""`) equals the falsy value of its type, `Option.getD` is an
  exact model.
* Python `float(...)` is modelled for decimal literals with optional sign and
  optional fractional part (the forms health gauges use); exponent, infinity
  and nan spellings are outside the model and parse to `none` (the line is
  then skipped, as a `ValueError` would be).
* `str.splitlines` is modelled for `\n`-separated text (the exposition format
  used by the metrics endpoint).
-/

/-- Python strings are character lists. -/
abbrev PyStr := List Char

/-- Literal helper: a Lean string literal as a `PyStr`. -/
def pys (s : String) : PyStr := s.toList

/-! ## Python `str.split(sep)` (fuelled, so that it computes by kernel
reduction on concrete inputs) -/

/-- Worker for `pysplit`.  `fuel` bounds the recursion; with
`fuel ≥ s.length` the fuel-exhausted branch is never taken. -/
def splitGo (sep : PyStr) : Nat → PyStr → List PyStr
  | _, [] => [[]]
  | 0, s => [s]
  | fuel + 1, c :: rest =>
    if sep <+: (c :: rest) ∧ sep ≠ [] then
      [] :: splitGo sep fuel ((c :: rest).drop sep.length)
    else
      match splitGo sep fuel rest with
      | [] => [[c]]
      | h :: t => (c :: h) :: t

/-- Python `s.split(sep)` for a non-empty separator: split at every
non-overlapping occurrence of `sep`, scanning left to right. -/
def pysplit (sep s : PyStr) : List PyStr := splitGo sep s.length s

/-- Python `s.split()` worker: split on whitespace runs, dropping empties. -/
def splitWsGo : Nat → PyStr → List PyStr
  | _, [] => []
  | 0, s => [s]
  | fuel + 1, c :: rest =>
    if c.isWhitespace then splitWsGo fuel rest
    else (c :: rest.takeWhile (fun d => !d.isWhitespace)) ::
      splitWsGo fuel (rest.dropWhile (fun d => !d.isWhitespace))

/-- Python `s.split()` (no separator): whitespace runs, no empty fields. -/
def splitWs (s : PyStr) : List PyStr := splitWsGo s.length s

/-- Python `s.split(c)` for a single-character separator, used to model
`str.splitlines` below. -/
def splitOnChar (sep : Char) : PyStr → List PyStr
  | [] => [[]]
  | c :: rest =>
    if c = sep then [] :: splitOnChar sep rest
    else
      match splitOnChar sep rest with
      | [] => [[c]]
      | h :: t => (c :: h) :: t

/-- Python `s.splitlines()` for `\n`-separated text: like splitting on the
newline character, except that a trailing newline produces no empty final
line and the empty string produces no lines. -/
def splitLinesCL (s : PyStr) : List PyStr :=
  if s = [] then []
  else if s.getLast? = some '\n' then (splitOnChar '\n' s).dropLast
  else splitOnChar '\n' s

/-- `sep.join parts` for character-list strings. -/
def interjoin (sep : PyStr) : List PyStr → PyStr
  | [] => []
  | [p] => p
  | p :: rest => p ++ sep ++ interjoin sep rest

/-- Python `s.replace(old, new)` for a non-empty `old`: replace every
non-overlapping occurrence, left to right (equal to `new.join(s.split(old))`). -/
def pyreplace (old new s : PyStr) : PyStr := interjoin new (pysplit old s)

/-- Does `sep` occur as a contiguous substring of `s`?  (Executable form.) -/
def containsSub (sep s : PyStr) : Bool := s.tails.any (fun t => sep.isPrefixOf t)

/-! ## Python `float` (restricted model) and the health-gauge value test -/

/-- Digit-string value. -/
def digitsToNat (ds : PyStr) : Nat := ds.foldl (fun a c => a * 10 + (c.toNat - 48)) 0

/-- Unsigned decimal literal `digits [. digits]` with at least one digit;
the result `(n, k)` denotes the value `n / 10^k`. -/
def parseUnsigned (u : PyStr) : Option (Nat × Nat) :=
  let intPart := u.takeWhile (·.isDigit)
  let rest := u.dropWhile (·.isDigit)
  match rest with
  | [] => if intPart = [] then none else some (digitsToNat intPart, 0)
  | '.' :: frac =>
    if frac.all (·.isDigit) ∧ (intPart ≠ [] ∨ frac ≠ [])
    then some (digitsToNat (intPart ++ frac), frac.length)
    else none
  | _ => none

/-- Model of Python `float(s)` on decimal literals: strip surrounding
whitespace, optional sign, digits with an optional single point.  The result
`(n, k)` denotes the value `n / 10^k`; `none` models `ValueError`. -/
def parsePyFloat (s : PyStr) : Option (Int × Nat) :=
  let t := s.dropWhile (·.isWhitespace)
  let t := (t.reverse.dropWhile (·.isWhitespace)).reverse
  match t with
  | '-' :: u => (parseUnsigned u).map (fun p => (-(p.1 : Int), p.2))
  | '+' :: u => (parseUnsigned u).map (fun p => ((p.1 : Int), p.2))
  | u => (parseUnsigned u).map (fun p => ((p.1 : Int), p.2))

/-- `float(s) == 1`, the health test of the source (`val == 1`); `false` also
when `s` does not parse (that case is skipped upstream anyway). -/
def pyFloatEqOne (s : PyStr) : Bool :=
  match parsePyFloat s with
  | some (n, k) => n = (10 : Int) ^ k
  | none => false

/-! ## Python dicts as association lists -/

/-- Python `d[k] = v`: replace in place if the key is present (keeping its
position), else append. -/
def dinsert {β : Type} (m : List (PyStr × β)) (k : PyStr) (v : β) : List (PyStr × β) :=
  if ∃ p ∈ m, p.1 = k then
    m.map (fun p => if p.1 = k then (k, v) else p)
  else m ++ [(k, v)]

/-- Python `d.get(k)`: `none` when absent. -/
def dlookup {β : Type} (m : List (PyStr × β)) (k : PyStr) : Option β :=
  (m.find? (fun p => decide (p.1 = k))).map (·.2)

/-! ## The metrics parser (source lines 86–94) -/

/-- The matched line head: `caddy_reverse_proxy_upstreams_healthy{`. -/
def healthGaugeHead : PyStr := pys "caddy_reverse_proxy_upstreams_healthy\x7b"

/-- The label separator the source splits on: `upstream="`. -/
def upstreamLabelSep : PyStr := pys "upstream=\""

/-- One loop iteration of the metrics parser: source lines 88–94.
`line.split('upstream="')[1]` raising `IndexError`, or `float` raising
`ValueError`, is the `none` result (the `except` arm: line skipped). -/
def parseHealthLine (line : PyStr) : Option (PyStr × Bool) :=
  if healthGaugeHead.isPrefixOf line then
    match (pysplit upstreamLabelSep line).get? 1 with
    | none => none
    | some seg =>
      let addr := (pysplit (pys "\"") seg).headD []
      match (splitWs line).getLast? with
      | none => none
      | some tok =>
        match parsePyFloat tok with
        | none => none
        | some q => some (addr, decide (q.1 = (10 : Int) ^ q.2))
  else none

/-- The `health_map` of the source (lines 86–94): fold the per-line parser
over `metrics_text.splitlines()`, last occurrence winning per address. -/
def health_map (metrics_text : PyStr) : List (PyStr × Bool) :=
  (splitLinesCL metrics_text).foldl
    (fun m line =>
      match parseHealthLine line with
      | some ab => dinsert m ab.1 ab.2
      | none => m)
    []

/-! ## Data model: fetched JSON values with optional sub-fields -/

/-- A `match` entry of a route: `{"host": [...]}`. -/
structure MatchEntry where
  host : Option (List PyStr) := none
deriving DecidableEq, Repr

/-- An upstream of a `reverse_proxy` handler: `{"dial": "..."}`. -/
structure DialUpstream where
  dial : Option PyStr := none
deriving DecidableEq, Repr

/-- A handler entry of a route: `{"handler": ..., "upstreams": [...]}`. -/
structure Handler where
  upstreams : Option (List DialUpstream) := none
deriving DecidableEq, Repr

/-- A route descriptor: `{"@id": ..., "match": [...], "handle": [...]}`. -/
structure Route where
  atId : Option PyStr := none
  matchL : Option (List MatchEntry) := none
  handle : Option (List Handler) := none
deriving DecidableEq, Repr

/-- A reported upstream record from `/reverse_proxy/upstreams`. -/
structure UpstreamRec where
  address : Option PyStr := none
  num_requests : Option Int := none
  fails : Option Int := none
deriving DecidableEq, Repr

/-- `tls.certificates`. -/
structure Certificates where
  automate : Option (List PyStr) := none
deriving DecidableEq, Repr

/-- One automation policy. -/
structure Policy where
  subjects : Option (List PyStr) := none
deriving DecidableEq, Repr

/-- `tls.automation`. -/
structure Automation where
  policies : Option (List Policy) := none
deriving DecidableEq, Repr

/-- The TLS app config. -/
structure TlsConfig where
  certificates : Option Certificates := none
  automation : Option Automation := none
deriving DecidableEq, Repr

/-- `dynamic_dns.versions`. -/
structure Versions where
  ipv4 : Option Bool := none
  ipv6 : Option Bool := none
deriving DecidableEq, Repr

/-- The dynamic-DNS app config; `domains` maps a zone to its subdomains. -/
structure DynDns where
  domains : Option (List (PyStr × List PyStr)) := none
  versions : Option Versions := none
deriving DecidableEq, Repr

/-- One output service record (the dict appended at source lines 123–131). -/
structure Service where
  id : PyStr
  hosts : List PyStr
  socket : PyStr
  socket_exists : Bool
  healthy : Bool
  requests : Int
  fails : Int
deriving DecidableEq, Repr

/-- The `dns` sub-object of the output (source lines 145–149). -/
structure DnsOut where
  domains : List (PyStr × List PyStr)
  ipv4 : Bool
  ipv6 : Bool
deriving DecidableEq, Repr

/-- The aggregated output of `get_status` (source lines 142–150). -/
structure AggregatedStatus where
  services : List Service
  tls_domains : List PyStr
  dns : DnsOut
deriving DecidableEq, Repr

/-- The five fetch results (`None` on a failed fetch) plus the filesystem. -/
structure Env where
  routes : Option (List Route) := none
  upstreams : Option (List UpstreamRec) := none
  tls_config : Option TlsConfig := none
  dyn_dns : Option DynDns := none
  metrics_text : Option PyStr := none
  fs : List PyStr := []

/-- The Python exception that can escape `get_status`. -/
inductive PyErr where
  | keyError
deriving DecidableEq, Repr

/-! ## The reconciler (source lines 97–150) -/

/-- `os.path.exists`: the empty path never exists; otherwise membership in
the filesystem. -/
def osPathExists (fs : List PyStr) (p : PyStr) : Bool :=
  !p.isEmpty && fs.contains p

/-- The `sock` selection loop of the source (lines 107–110): every upstream
entry scanned overwrites `sock` with its `dial` value (default `""`). -/
def selectSock (route : Route) : PyStr :=
  (route.handle.getD []).foldl
    (fun s h => (h.upstreams.getD []).foldl (fun _ u => u.dial.getD []) s)
    []

/-- The path normalisation of the source (line 113):
`sock.replace("unix/", "").replace("unix//", "/")`. -/
def sock_file (sock : PyStr) : PyStr :=
  pyreplace (pys "unix//") (pys "/") (pyreplace (pys "unix/") [] sock)

/-- The `upstream_map` build of the source (lines 97–99).  `u["address"]`
has no default: a record without an address raises `KeyError`. -/
def buildUpstreamMap (us : List UpstreamRec) : Except PyErr (List (PyStr × UpstreamRec)) :=
  us.foldlM
    (fun m u =>
      match u.address with
      | none => .error .keyError
      | some a => .ok (dinsert m a u))
    []

/-- One iteration of the services loop (source lines 102–131), producing the
record for one route. -/
def buildService (fs : List PyStr) (hm : List (PyStr × Bool))
    (um : List (PyStr × UpstreamRec)) (route : Route) : Service :=
  let route_id := route.atId.getD (pys "unknown")
  let hosts := (route.matchL.getD []).foldl (fun acc m => acc ++ m.host.getD []) []
  let sock := selectSock route
  let sockFile := sock_file sock
  let sock_addr := sock
  let sock_exists := osPathExists fs sockFile
  let upstream_info := (dlookup um sock_addr).getD {}
  let healthy := (dlookup hm sock_addr).getD sock_exists
  { id := route_id
    hosts := hosts
    socket := sockFile
    socket_exists := sock_exists
    healthy := healthy
    requests := upstream_info.num_requests.getD 0
    fails := upstream_info.fails.getD 0 }

/-- Python `a or b` on lists: `a` when non-empty, else `b`. -/
def pyOr {α : Type} (a b : List α) : List α := if a.isEmpty then b else a

/-- The `automate` list of the source (line 134). -/
def automateOf (cfg : Option TlsConfig) : List PyStr :=
  ((cfg.getD {}).certificates.getD {}).automate.getD []

/-- The `policies` list of the source (line 135). -/
def policiesOf (cfg : Option TlsConfig) : List Policy :=
  ((cfg.getD {}).automation.getD {}).policies.getD []

/-- `tls_domains` of the source (line 136):
`automate or [s for p in policies for s in p.get("subjects", [])]`. -/
def tlsDomains (cfg : Option TlsConfig) : List PyStr :=
  pyOr (automateOf cfg) ((policiesOf cfg).map (fun p => p.subjects.getD [])).flatten

/-- The `dns` sub-object of the output (source lines 139–148). -/
def dnsOut (d : Option DynDns) : DnsOut :=
  let dd := d.getD {}
  { domains := dd.domains.getD []
    ipv4 := (dd.versions.getD {}).ipv4.getD false
    ipv6 := (dd.versions.getD {}).ipv6.getD false }

/-- `get_status` (source lines 78–150).  Each fetched source defaults to
empty when its fetch failed (lines 79–83); the only raising access is
`u["address"]` while building `upstream_map`. -/
def get_status (env : Env) : Except PyErr AggregatedStatus :=
  let routes := env.routes.getD []
  let upstreams := env.upstreams.getD []
  let metrics_text := env.metrics_text.getD []
  let hm := health_map metrics_text
  match buildUpstreamMap upstreams with
  | .error e => .error e
  | .ok upstream_map =>
    .ok
      { services := routes.map (buildService env.fs hm upstream_map)
        tls_domains := tlsDomains env.tls_config
        dns := dnsOut env.dyn_dns }

/-! ## Well-formed metrics text: renderer and round-trip parse

The renderer follows the exposition-format line shape of the spec,
`metric_name{label="value"} number`, for the designated health gauge. -/

/-- A rendered health-gauge line for address `addr` and value text `v`. -/
def mkHealthLine (addr v : PyStr) : PyStr :=
  healthGaugeHead ++ upstreamLabelSep ++ addr ++ pys "\"\x7d " ++ v

/-- A rendered metrics payload: one health-gauge line per listed sample,
newline-separated. -/
def mkMetricsText (gauges : List (PyStr × PyStr)) : PyStr :=
  interjoin (pys "\n") (gauges.map (fun g => mkHealthLine g.1 g.2))

/-- Well-formedness of one gauge sample `(address, value-text)`: the address
fits in a quoted label on one line and does not end in `upstream=`, and the
value text is one non-empty whitespace-free numeric token. -/
def WfGauge (g : PyStr × PyStr) : Prop :=
  '"' ∉ g.1 ∧ '\n' ∉ g.1 ∧ ¬ (pys "upstream=") <:+ g.1 ∧
  g.2 ≠ [] ∧ (∀ d ∈ g.2, d.isWhitespace = false) ∧ '"' ∉ g.2 ∧ '\n' ∉ g.2 ∧
  (parsePyFloat g.2).isSome = true

instance decidableWfGauge (g : PyStr × PyStr) : Decidable (WfGauge g) := by
  unfold WfGauge
  exact inferInstance


/-! ## Concrete fixtures used by counterexamples and witnesses -/

/-- The end-to-end scenario route of the spec: id `api`, one host, one
reverse-proxy handler dialling the `api` unix socket. -/
def routeApi : Route :=
  { atId := some (pys "api")
    matchL := some [{ host := some [pys "api.example.com"] }]
    handle := some [{ upstreams := some [{ dial := some (pys "unix//tmp/caddy-dev/api.sock") }] }] }

/-- The end-to-end scenario environment: the `api` route fetched, an empty
upstream-statistics list, no TLS/DNS/metrics data, empty filesystem. -/
def envApi : Env :=
  { routes := some [routeApi]
    upstreams := some [] }

/-- An environment whose fetched upstream list has one record without an
`address` field. -/
def envNoAddress : Env :=
  { upstreams := some [{ address := none }] }

/-- An environment with two fetched routes that both lack an `@id`. -/
def envTwoAnon : Env :=
  { routes := some [{ atId := none }, { atId := none }] }

/-- A route with two handler entries: the first declares a dial target, the
second carries an upstream entry with no `dial` field. -/
def routeTrailingNoDial : Route :=
  { handle := some [{ upstreams := some [{ dial := some (pys "a") }] },
                    { upstreams := some [{ dial := none }] }] }

/-- A single well-formed metrics line whose upstream address ends in
`upstream=`. -/
def trickyMetricsText : PyStr :=
  pys "caddy_reverse_proxy_upstreams_healthy\x7bupstream=\"xupstream=\"\x7d 1"

/-- Three gauge samples: two for `u1` (healthy then unhealthy), one for `u2`. -/
def sampleGauges : List (PyStr × PyStr) :=
  [(pys "u1", pys "1"), (pys "u1", pys "0"), (pys "u2", pys "1")]

/-- The service record the spec expects for the end-to-end scenario. -/
def svcApi : Service :=
  { id := pys "api"
    hosts := [pys "api.example.com"]
    socket := pys "/tmp/caddy-dev/api.sock"
    socket_exists := false
    healthy := false
    requests := 0
    fails := 0 }

/-- The aggregate the reconciler produces for `envApi`. -/
def aggApi : AggregatedStatus :=
  { services := [svcApi]
    tls_domains := []
    dns := ⟨[], false, false⟩ }

/-- A route with two handler entries, each declaring one dial target. -/
def routeTwoDials : Route :=
  { handle := some [{ upstreams := some [{ dial := some (pys "a") }] },
                    { upstreams := some [{ dial := some (pys "b") }] }] }

/-- A route with no fields at all (in particular no upstream dial target). -/
def routeEmpty : Route := {}

/-! ## Lemmas about `pysplit` -/

theorem splitGo_fuel (sep : PyStr) :
    ∀ (n : Nat) (s : PyStr) (f₁ f₂ : Nat), s.length ≤ n → s.length ≤ f₁ → s.length ≤ f₂ →
      splitGo sep f₁ s = splitGo sep f₂ s := by
  intro n
  induction n with
  | zero =>
    intro s f₁ f₂ h _ _
    have hs : s = [] := List.length_eq_zero.mp (Nat.le_zero.mp h)
    subst hs
    cases f₁ <;> cases f₂ <;> rfl
  | succ n ih =>
    intro s f₁ f₂ hn h₁ h₂
    match s with
    | [] => cases f₁ <;> cases f₂ <;> rfl
    | c :: rest =>
      match f₁, h₁ with
      | g₁ + 1, h₁ =>
        match f₂, h₂ with
        | g₂ + 1, h₂ =>
          simp only [List.length_cons, Nat.succ_le_succ_iff] at hn h₁ h₂
          simp only [splitGo]
          by_cases hp : sep <+: (c :: rest) ∧ sep ≠ []
          · simp only [if_pos hp]
            have hlen : (List.drop sep.length (c :: rest)).length ≤ rest.length := by
              have hpos : 1 ≤ sep.length := by
                cases hsep : sep with
                | nil => exact absurd hsep hp.2
                | cons x xs => simp
              simp only [List.length_drop, List.length_cons]
              omega
            exact congrArg _ (ih _ _ _ (le_trans hlen hn) (le_trans hlen h₁) (le_trans hlen h₂))
          · simp only [if_neg hp]
            rw [ih rest g₁ g₂ hn h₁ h₂]

theorem pysplit_nil (sep : PyStr) : pysplit sep [] = [[]] := rfl

theorem pysplit_pos {sep : PyStr} (c : Char) (rest : PyStr)
    (h₁ : sep <+: (c :: rest)) (h₂ : sep ≠ []) :
    pysplit sep (c :: rest) = [] :: pysplit sep (List.drop sep.length (c :: rest)) := by
  show splitGo sep (rest.length + 1) (c :: rest) = _
  simp only [splitGo, if_pos (And.intro h₁ h₂)]
  have hpos : 1 ≤ sep.length := by
    cases hsep : sep with
    | nil => exact absurd hsep h₂
    | cons x xs => simp
  have hlen : (List.drop sep.length (c :: rest)).length ≤ rest.length := by
    simp only [List.length_drop, List.length_cons]; omega
  exact congrArg _ (splitGo_fuel sep rest.length _ rest.length _ hlen hlen le_rfl)

theorem pysplit_neg {sep : PyStr} (c : Char) (rest : PyStr)
    (h : ¬ (sep <+: (c :: rest) ∧ sep ≠ [])) :
    pysplit sep (c :: rest) =
      match pysplit sep rest with
      | [] => [[c]]
      | h :: t => (c :: h) :: t := by
  show splitGo sep (rest.length + 1) (c :: rest) = _
  simp only [splitGo, if_neg h]
  rw [splitGo_fuel sep rest.length rest rest.length rest.length le_rfl le_rfl le_rfl]
  rfl

theorem pysplit_ne_nil (sep s : PyStr) : pysplit sep s ≠ [] := by
  match s with
  | [] => simp [pysplit_nil]
  | c :: rest =>
    by_cases h : sep <+: (c :: rest) ∧ sep ≠ []
    · rw [pysplit_pos c rest h.1 h.2]; simp
    · rw [pysplit_neg c rest h]
      cases pysplit sep rest <;> simp

theorem containsSub_iff (sep s : PyStr) :
    containsSub sep s = true ↔ ∃ p q, s = p ++ sep ++ q := by
  unfold containsSub
  rw [List.any_eq_true]
  constructor
  · rintro ⟨t, ht, hp⟩
    rw [List.mem_tails] at ht
    rw [List.isPrefixOf_iff_prefix] at hp
    obtain ⟨p, hps⟩ := ht
    obtain ⟨q, hq⟩ := hp
    exact ⟨p, q, by rw [← hps, ← hq, List.append_assoc]⟩
  · rintro ⟨p, q, rfl⟩
    refine ⟨sep ++ q, ?_, ?_⟩
    · rw [List.mem_tails]
      exact ⟨p, by rw [List.append_assoc]⟩
    · rw [List.isPrefixOf_iff_prefix]
      exact ⟨q, rfl⟩

theorem pysplit_of_not_contains {sep : PyStr} (_hsep : sep ≠ []) :
    ∀ {s : PyStr}, containsSub sep s = false → pysplit sep s = [s] := by
  intro s
  induction s with
  | nil => intro _; rfl
  | cons c rest ih =>
    intro h
    have hnp : ¬ sep <+: (c :: rest) := by
      intro hp
      obtain ⟨q, hq⟩ := hp
      have : containsSub sep (c :: rest) = true :=
        (containsSub_iff sep _).mpr ⟨[], q, by simp [hq]⟩
      rw [h] at this
      exact Bool.false_ne_true this
    have hrest : containsSub sep rest = false := by
      cases hr : containsSub sep rest with
      | false => rfl
      | true =>
        obtain ⟨p, q, hpq⟩ := (containsSub_iff sep rest).mp hr
        have : containsSub sep (c :: rest) = true :=
          (containsSub_iff sep _).mpr ⟨c :: p, q, by simp [hpq]⟩
        rw [h] at this
        exact absurd this Bool.false_ne_true
    rw [pysplit_neg c rest (fun hc => hnp hc.1), ih hrest]

theorem pysplit_append {sep : PyStr} (b : PyStr) (hsep : sep ≠ []) :
    ∀ (a : PyStr), (∀ a₂, a₂ <:+ a → a₂ ≠ [] → ¬ sep <+: (a₂ ++ sep ++ b)) →
      pysplit sep (a ++ sep ++ b) = a :: pysplit sep b := by
  intro a
  induction a with
  | nil =>
    intro _
    simp only [List.nil_append]
    match sep, hsep with
    | c :: sep', _ =>
      have hpre : (c :: sep') <+: (c :: (sep' ++ b)) := ⟨b, by simp⟩
      have := @pysplit_pos (c :: sep') c (sep' ++ b) hpre (by simp)
      rw [show (c :: sep') ++ b = c :: (sep' ++ b) by simp] at *
      rw [this, show List.drop (c :: sep').length (c :: (sep' ++ b)) = b by
        rw [show c :: (sep' ++ b) = (c :: sep') ++ b by simp]
        exact List.drop_left _ _]
  | cons c a' ih =>
    intro H
    have hnp : ¬ sep <+: ((c :: a') ++ sep ++ b) :=
      H (c :: a') List.suffix_rfl (by simp)
    rw [show (c :: a') ++ sep ++ b = c :: (a' ++ sep ++ b) by simp] at hnp ⊢
    rw [pysplit_neg c (a' ++ sep ++ b) (fun hc => hnp hc.1)]
    rw [ih (fun a₂ hs hne => H a₂ (hs.trans (List.suffix_cons c a')) hne)]

/-! ## Occurrence-freeness facts for the two metrics separators -/

theorem noEarly_head (b : PyStr) :
    ∀ a₂, a₂ <:+ healthGaugeHead → a₂ ≠ [] →
      ¬ upstreamLabelSep <+: (a₂ ++ upstreamLabelSep ++ b) := by
  intro a₂ hs hne hp
  rw [List.append_assoc] at hp
  have h₁ : a₂ <+: a₂ ++ (upstreamLabelSep ++ b) := List.prefix_append _ _
  cases List.prefix_or_prefix_of_prefix hp h₁ with
  | inl h =>
    have hd : ∀ t ∈ healthGaugeHead.tails, ¬ upstreamLabelSep <+: t := by decide
    exact hd a₂ ((List.mem_tails _ _).mpr hs) h
  | inr h =>
    have hd : ∀ t ∈ healthGaugeHead.tails, t ≠ [] → ¬ t <+: upstreamLabelSep := by decide
    exact hd a₂ ((List.mem_tails _ _).mpr hs) hne h

theorem noEarly_quotefree (b a : PyStr) (ha : '"' ∉ a) :
    ∀ a₂, a₂ <:+ a → a₂ ≠ [] → ¬ (pys "\"") <+: (a₂ ++ pys "\"" ++ b) := by
  intro a₂ hs hne hp
  match a₂, hne with
  | x :: t, _ =>
    obtain ⟨r, hr⟩ := hp
    simp only [List.cons_append, List.append_assoc] at hr
    have hx : x = '"' := by
      have := (List.cons.injEq _ _ _ _).mp hr.symm
      exact this.1
    exact ha (hs.subset (by simp [hx]))

/-! ## Lemmas about `splitOnChar`, `splitLinesCL` and `interjoin` -/

theorem splitOnChar_of_not_mem {sep : Char} :
    ∀ {s : PyStr}, sep ∉ s → splitOnChar sep s = [s] := by
  intro s
  induction s with
  | nil => intro _; rfl
  | cons c rest ih =>
    intro h
    have hc : ¬ c = sep := fun hcs => h (by simp [hcs])
    have hrest : sep ∉ rest := fun hr => h (by simp [hr])
    simp only [splitOnChar, if_neg hc, ih hrest]

theorem splitOnChar_append {sep : Char} (y : PyStr) :
    ∀ (x : PyStr), sep ∉ x → splitOnChar sep (x ++ sep :: y) = x :: splitOnChar sep y := by
  intro x
  induction x with
  | nil => intro _; simp [splitOnChar]
  | cons c x' ih =>
    intro h
    have hc : ¬ c = sep := fun hcs => h (by simp [hcs])
    have hx : sep ∉ x' := fun hr => h (by simp [hr])
    show splitOnChar sep (c :: (x' ++ sep :: y)) = _
    simp only [splitOnChar, if_neg hc]
    rw [ih hx]

theorem interjoin_ne_nil {sep : PyStr} :
    ∀ {lines : List PyStr}, lines ≠ [] → (∀ l ∈ lines, l ≠ []) →
      interjoin sep lines ≠ [] := by
  intro lines
  match lines with
  | [] => intro hcon _; exact absurd rfl hcon
  | [l] => intro _ h; exact h l (by simp)
  | l :: l' :: ls =>
    intro _ h
    show l ++ sep ++ interjoin sep (l' :: ls) ≠ []
    have : l ≠ [] := h l (by simp)
    simp [this]

theorem getLast?_interjoin {sep : PyStr} :
    ∀ (lines : List PyStr), lines ≠ [] → (∀ l ∈ lines, l ≠ []) →
      ∃ d, (interjoin sep lines).getLast? = some d ∧ ∃ l ∈ lines, d ∈ l := by
  intro lines
  match lines with
  | [] => intro hcon _; exact absurd rfl hcon
  | [l] =>
    intro _ h
    have hl : l ≠ [] := h l (by simp)
    refine ⟨l.getLast hl, ?_, l, by simp, List.getLast_mem hl⟩
    show l.getLast? = _
    rw [List.getLast?_eq_getLast l hl]
  | l :: l' :: ls =>
    intro _ h
    obtain ⟨d, hd, lw, hlw, hdl⟩ :=
      getLast?_interjoin (l' :: ls) (by simp) (fun x hx => h x (by simp [hx]))
    refine ⟨d, ?_, lw, by simp [hlw], hdl⟩
    show (l ++ sep ++ interjoin sep (l' :: ls)).getLast? = some d
    have hne : interjoin sep (l' :: ls) ≠ [] :=
      interjoin_ne_nil (by simp) (fun x hx => h x (by simp [hx]))
    rw [List.append_assoc, List.getLast?_append_of_ne_nil l (by simp [hne]),
      List.getLast?_append_of_ne_nil sep hne]
    exact hd

theorem splitLines_interjoin :
    ∀ (lines : List PyStr), (∀ l ∈ lines, l ≠ [] ∧ '\n' ∉ l) →
      splitLinesCL (interjoin (pys "\n") lines) = lines := by
  intro lines h
  match lines with
  | [] => rfl
  | l :: ls =>
    have hne : interjoin (pys "\n") (l :: ls) ≠ [] :=
      interjoin_ne_nil (by simp) (fun x hx => (h x hx).1)
    obtain ⟨d, hd, lw, hlw, hdl⟩ :=
      getLast?_interjoin (l :: ls) (by simp) (fun x hx => (h x hx).1)
    have hdn : d ≠ '\n' := fun hh => (h lw hlw).2 (hh ▸ hdl)
    have hsplit : ∀ (ls' : List PyStr), (∀ x ∈ ls', x ≠ [] ∧ '\n' ∉ x) →
        splitOnChar '\n' (interjoin (pys "\n") ls') = if ls' = [] then [[]] else ls' := by
      intro ls'
      induction ls' with
      | nil => intro _; rfl
      | cons a as iha =>
        intro hx
        match as with
        | [] => simp [interjoin, splitOnChar_of_not_mem (hx a (by simp)).2]
        | b :: bs =>
          show splitOnChar '\n' (a ++ pys "\n" ++ interjoin (pys "\n") (b :: bs)) = _
          rw [List.append_assoc]
          have : pys "\n" ++ interjoin (pys "\n") (b :: bs) =
              '\n' :: interjoin (pys "\n") (b :: bs) := rfl
          rw [this, splitOnChar_append _ a (hx a (by simp)).2,
            iha (fun x hxx => hx x (by simp [hxx]))]
          simp
    unfold splitLinesCL
    rw [if_neg hne, if_neg (by rw [hd]; simp [hdn]), hsplit (l :: ls) h]
    simp

/-! ## Lemmas about `splitWs` -/

theorem dropWhileLenLe (p : Char → Bool) :
    ∀ (l : PyStr), (l.dropWhile p).length ≤ l.length := by
  intro l
  induction l with
  | nil => simp
  | cons c rest ih =>
    by_cases h : p c
    · rw [List.dropWhile_cons, if_pos h]
      exact le_trans ih (Nat.le_succ _)
    · rw [List.dropWhile_cons, if_neg h]

theorem splitWsGo_fuel :
    ∀ (n : Nat) (s : PyStr) (f₁ f₂ : Nat), s.length ≤ n → s.length ≤ f₁ → s.length ≤ f₂ →
      splitWsGo f₁ s = splitWsGo f₂ s := by
  intro n
  induction n with
  | zero =>
    intro s f₁ f₂ h _ _
    have hs : s = [] := List.length_eq_zero.mp (Nat.le_zero.mp h)
    subst hs
    cases f₁ <;> cases f₂ <;> rfl
  | succ n ih =>
    intro s f₁ f₂ hn h₁ h₂
    match s with
    | [] => cases f₁ <;> cases f₂ <;> rfl
    | c :: rest =>
      match f₁, h₁ with
      | g₁ + 1, h₁ =>
        match f₂, h₂ with
        | g₂ + 1, h₂ =>
          simp only [List.length_cons, Nat.succ_le_succ_iff] at hn h₁ h₂
          simp only [splitWsGo]
          by_cases hc : c.isWhitespace
          · simp only [if_pos hc]
            exact ih rest g₁ g₂ hn h₁ h₂
          · simp only [if_neg hc]
            have hlen : (rest.dropWhile (fun d => !d.isWhitespace)).length ≤ rest.length :=
              dropWhileLenLe _ _
            rw [ih _ g₁ g₂ (le_trans hlen hn) (le_trans hlen h₁) (le_trans hlen h₂)]

theorem splitWs_nil : splitWs [] = [] := rfl

theorem splitWs_cons_ws {c : Char} (rest : PyStr) (hc : c.isWhitespace = true) :
    splitWs (c :: rest) = splitWs rest := by
  show splitWsGo (rest.length + 1) (c :: rest) = _
  simp only [splitWsGo, if_pos hc]
  exact splitWsGo_fuel rest.length rest _ _ le_rfl le_rfl le_rfl

theorem splitWs_cons_nws {c : Char} (rest : PyStr) (hc : c.isWhitespace = false) :
    splitWs (c :: rest) =
      (c :: rest.takeWhile (fun d => !d.isWhitespace)) ::
        splitWs (rest.dropWhile (fun d => !d.isWhitespace)) := by
  show splitWsGo (rest.length + 1) (c :: rest) = _
  simp only [splitWsGo, hc, if_neg Bool.false_ne_true]
  have hlen : (rest.dropWhile (fun d => !d.isWhitespace)).length ≤ rest.length :=
    dropWhileLenLe _ _
  exact congrArg _ (splitWsGo_fuel rest.length _ rest.length _ hlen hlen le_rfl)

theorem takeWhile_append_stop {p : Char → Bool} {c : Char} (y : PyStr) (hc : p c = false) :
    ∀ (x : PyStr), (x ++ c :: y).takeWhile p = x.takeWhile p := by
  intro x
  induction x with
  | nil => simp [List.takeWhile, hc]
  | cons d x' ih =>
    by_cases hd : p d <;> simp [List.takeWhile_cons, hd, ih]

theorem dropWhile_append_stop {p : Char → Bool} {c : Char} (y : PyStr) (hc : p c = false) :
    ∀ (x : PyStr), (x ++ c :: y).dropWhile p = x.dropWhile p ++ c :: y := by
  intro x
  induction x with
  | nil => simp [List.dropWhile, hc]
  | cons d x' ih =>
    by_cases hd : p d <;> simp [List.dropWhile_cons, hd, ih]

theorem splitWs_append_token_aux :
    ∀ (n : Nat) (x : PyStr), x.length ≤ n → ∀ (v : PyStr), v ≠ [] →
      (∀ d ∈ v, d.isWhitespace = false) →
      splitWs (x ++ ' ' :: v) = splitWs x ++ [v] := by
  intro n
  induction n with
  | zero =>
    intro x hx v hv hvw
    have hxe : x = [] := List.length_eq_zero.mp (Nat.le_zero.mp hx)
    subst hxe
    simp only [List.nil_append, splitWs_nil]
    rw [splitWs_cons_ws v (by decide)]
    match v, hv with
    | d :: v', _ =>
      rw [splitWs_cons_nws v' (hvw d (by simp))]
      have ht : v'.takeWhile (fun d => !d.isWhitespace) = v' :=
        List.takeWhile_eq_self_iff.mpr (fun a ha => by simp [hvw a (by simp [ha])])
      have hd : v'.dropWhile (fun d => !d.isWhitespace) = [] :=
        List.dropWhile_eq_nil_iff.mpr (fun a ha => by simp [hvw a (by simp [ha])])
      rw [ht, hd, splitWs_nil]
  | succ n ih =>
    intro x hx v hv hvw
    match x with
    | [] => exact ih [] (by simp) v hv hvw
    | c :: x' =>
      simp only [List.length_cons, Nat.succ_le_succ_iff] at hx
      by_cases hc : c.isWhitespace
      · rw [List.cons_append, splitWs_cons_ws _ hc, splitWs_cons_ws _ hc]
        exact ih x' hx v hv hvw
      · rw [List.cons_append, splitWs_cons_nws _ (Bool.eq_false_iff.mpr hc),
          splitWs_cons_nws _ (Bool.eq_false_iff.mpr hc)]
        rw [takeWhile_append_stop _ (by decide) x',
          dropWhile_append_stop _ (by decide) x']
        have hlen : (x'.dropWhile (fun d => !d.isWhitespace)).length ≤ n :=
          le_trans (dropWhileLenLe _ _) hx
        rw [ih _ hlen v hv hvw]
        simp

theorem splitWs_append_token (x v : PyStr) (hv : v ≠ [])
    (hvw : ∀ d ∈ v, d.isWhitespace = false) :
    splitWs (x ++ ' ' :: v) = splitWs x ++ [v] :=
  splitWs_append_token_aux x.length x le_rfl v hv hvw

/-! ## Lemmas about the dict model -/

theorem dlookup_nil {β : Type} (k : PyStr) : dlookup ([] : List (PyStr × β)) k = none := rfl

theorem dlookup_cons {β : Type} (q : PyStr × β) (m : List (PyStr × β)) (k : PyStr) :
    dlookup (q :: m) k = if q.1 = k then some q.2 else dlookup m k := by
  by_cases h : q.1 = k <;> simp [dlookup, List.find?, h]

theorem dlookup_mapfix {β : Type} (k k' : PyStr) (v : β) (hk : k' ≠ k) :
    ∀ (m : List (PyStr × β)),
      dlookup (m.map (fun p => if p.1 = k then (k, v) else p)) k' = dlookup m k' := by
  intro m
  induction m with
  | nil => rfl
  | cons q m' ih =>
    rw [List.map_cons, dlookup_cons, dlookup_cons]
    by_cases hq : q.1 = k
    · rw [if_pos hq]
      rw [if_neg (fun h : ((k, v) : PyStr × β).1 = k' => hk h.symm)]
      rw [if_neg (fun h : q.1 = k' => hk (h ▸ hq))]
      exact ih
    · rw [if_neg hq]
      by_cases hq' : q.1 = k' <;> simp [hq', ih]

theorem dlookup_append_single {β : Type} (k k' : PyStr) (v : β) (hk : k' ≠ k) :
    ∀ (m : List (PyStr × β)), dlookup (m ++ [(k, v)]) k' = dlookup m k' := by
  intro m
  induction m with
  | nil =>
    simp only [List.nil_append, dlookup_nil]
    rw [dlookup_cons, if_neg (fun h : ((k, v) : PyStr × β).1 = k' => hk h.symm), dlookup_nil]
  | cons q m' ih =>
    rw [List.cons_append, dlookup_cons, dlookup_cons]
    by_cases hq : q.1 = k' <;> simp [hq, ih]

theorem dlookup_dinsert_self {β : Type} (k : PyStr) (v : β) :
    ∀ (m : List (PyStr × β)), dlookup (dinsert m k v) k = some v := by
  intro m
  induction m with
  | nil =>
    rw [dinsert, if_neg (fun h => by obtain ⟨p, hp, _⟩ := h; exact List.not_mem_nil p hp)]
    rw [List.nil_append, dlookup_cons, if_pos rfl]
  | cons q m' ih =>
    by_cases hq : q.1 = k
    · have hex : ∃ p ∈ q :: m', p.1 = k := ⟨q, List.mem_cons_self q m', hq⟩
      rw [dinsert, if_pos hex, List.map_cons, if_pos hq, dlookup_cons, if_pos rfl]
    · by_cases hex : ∃ p ∈ m', p.1 = k
      · have hex2 : ∃ p ∈ q :: m', p.1 = k :=
          ⟨hex.choose, List.mem_cons_of_mem _ hex.choose_spec.1, hex.choose_spec.2⟩
        rw [dinsert, if_pos hex2, List.map_cons, if_neg hq, dlookup_cons, if_neg hq]
        have h := ih
        rw [dinsert, if_pos hex] at h
        exact h
      · have hex2 : ¬ ∃ p ∈ q :: m', p.1 = k := by
          rintro ⟨p, hp, he⟩
          rcases List.mem_cons.mp hp with rfl | hpm
          · exact hq he
          · exact hex ⟨p, hpm, he⟩
        rw [dinsert, if_neg hex2, List.cons_append, dlookup_cons, if_neg hq]
        have h := ih
        rw [dinsert, if_neg hex] at h
        exact h

theorem dlookup_dinsert_ne {β : Type} (m : List (PyStr × β)) (k k' : PyStr) (v : β)
    (hk : k' ≠ k) : dlookup (dinsert m k v) k' = dlookup m k' := by
  by_cases hex : ∃ p ∈ m, p.1 = k
  · rw [dinsert, if_pos hex]
    exact dlookup_mapfix k k' v hk m
  · rw [dinsert, if_neg hex]
    exact dlookup_append_single k k' v hk m

theorem keys_dinsert {β : Type} (m : List (PyStr × β)) (k : PyStr) (v : β) :
    (dinsert m k v).map Prod.fst =
      if ∃ p ∈ m, p.1 = k then m.map Prod.fst else m.map Prod.fst ++ [k] := by
  by_cases hex : ∃ p ∈ m, p.1 = k
  · rw [dinsert, if_pos hex, if_pos hex, List.map_map]
    apply List.map_congr_left
    intro p _
    by_cases hp : p.1 = k <;> simp [Function.comp, hp]
  · rw [dinsert, if_neg hex, if_neg hex, List.map_append]
    rfl

theorem mem_keys_dinsert {β : Type} (m : List (PyStr × β)) (k k' : PyStr) (v : β) :
    k' ∈ (dinsert m k v).map Prod.fst ↔ k' ∈ m.map Prod.fst ∨ k' = k := by
  rw [keys_dinsert]
  by_cases hex : ∃ p ∈ m, p.1 = k
  · rw [if_pos hex]
    constructor
    · exact Or.inl
    · rintro (h | rfl)
      · exact h
      · obtain ⟨p, hp, he⟩ := hex
        exact List.mem_map.mpr ⟨p, hp, he⟩
  · rw [if_neg hex]
    simp only [List.mem_append, List.mem_singleton]

theorem nodup_keys_dinsert {β : Type} (m : List (PyStr × β)) (k : PyStr) (v : β)
    (h : (m.map Prod.fst).Nodup) : ((dinsert m k v).map Prod.fst).Nodup := by
  rw [keys_dinsert]
  by_cases hex : ∃ p ∈ m, p.1 = k
  · rw [if_pos hex]; exact h
  · rw [if_neg hex]
    refine List.Nodup.append h (List.nodup_singleton k) ?_
    intro a ha hak
    rw [List.mem_singleton] at hak
    subst hak
    obtain ⟨p, hp, he⟩ := List.mem_map.mp ha
    exact hex ⟨p, hp, he⟩

theorem foldl_dinsert_lookup {β : Type} :
    ∀ (ps : List (PyStr × β)) (m : List (PyStr × β)) (k : PyStr),
      dlookup (ps.foldl (fun m p => dinsert m p.1 p.2) m) k =
        ((ps.reverse.find? (fun p => decide (p.1 = k))).map (·.2)).or (dlookup m k) := by
  intro ps
  induction ps with
  | nil => intro m k; simp
  | cons p ps' ih =>
    intro m k
    rw [List.foldl_cons, ih, List.reverse_cons, List.find?_append]
    cases hfind : ps'.reverse.find? (fun p => decide (p.1 = k)) with
    | some r => simp
    | none =>
      simp only [Option.none_or, Option.map_none']
      by_cases hp : p.1 = k
      · subst hp
        rw [dlookup_dinsert_self]
        simp [List.find?]
      · rw [dlookup_dinsert_ne _ _ _ _ (fun h => hp h.symm)]
        simp [List.find?, hp]

theorem foldl_dinsert_mem_keys {β : Type} :
    ∀ (ps : List (PyStr × β)) (m : List (PyStr × β)) (k : PyStr),
      k ∈ (ps.foldl (fun m p => dinsert m p.1 p.2) m).map Prod.fst ↔
        k ∈ m.map Prod.fst ∨ k ∈ ps.map Prod.fst := by
  intro ps
  induction ps with
  | nil =>
    intro m k
    simp only [List.foldl_nil, List.map_nil, List.not_mem_nil, or_false]
  | cons p ps' ih =>
    intro m k
    rw [List.foldl_cons, ih, mem_keys_dinsert]
    simp only [List.map_cons, List.mem_cons]
    tauto

theorem foldl_dinsert_nodup {β : Type} :
    ∀ (ps : List (PyStr × β)) (m : List (PyStr × β)),
      (m.map Prod.fst).Nodup →
      ((ps.foldl (fun m p => dinsert m p.1 p.2) m).map Prod.fst).Nodup := by
  intro ps
  induction ps with
  | nil => intro m h; exact h
  | cons p ps' ih =>
    intro m h
    rw [List.foldl_cons]
    exact ih _ (nodup_keys_dinsert m p.1 p.2 h)

/-! ## Round-trip parsing of well-formed metrics text -/

theorem mem_split_first {c : Char} :
    ∀ {l : PyStr}, c ∈ l → ∃ s t, l = s ++ c :: t ∧ c ∉ s := by
  intro l
  induction l with
  | nil => intro h; exact absurd h (List.not_mem_nil c)
  | cons x l' ih =>
    intro h
    by_cases hx : x = c
    · exact ⟨[], l', by simp [hx], List.not_mem_nil c⟩
    · have hmem : c ∈ l' := by
        rcases List.mem_cons.mp h with h' | h'
        · exact absurd h'.symm hx
        · exact h'
      obtain ⟨s, t, rfl, hs⟩ := ih hmem
      refine ⟨x :: s, t, by simp, ?_⟩
      intro hm
      rcases List.mem_cons.mp hm with he | hm'
      · exact hx he.symm
      · exact hs hm' 

theorem first_split_unique {c : Char} :
    ∀ (a₁ : PyStr) {b₁ a₂ b₂ : PyStr}, a₁ ++ c :: b₁ = a₂ ++ c :: b₂ →
      c ∉ a₁ → c ∉ a₂ → a₁ = a₂ ∧ b₁ = b₂ := by
  intro a₁
  induction a₁ with
  | nil =>
    intro b₁ a₂ b₂ heq h₁ h₂
    match a₂ with
    | [] => simpa using heq
    | y :: a₂' =>
      rw [List.nil_append, List.cons_append] at heq
      have hy : c = y := (List.cons.injEq _ _ _ _).mp heq |>.1
      exact absurd (by simp [hy]) h₂
  | cons x a₁' ih =>
    intro b₁ a₂ b₂ heq h₁ h₂
    match a₂ with
    | [] =>
      rw [List.nil_append, List.cons_append] at heq
      have hx : x = c := (List.cons.injEq _ _ _ _).mp heq |>.1
      exact absurd (by simp [hx.symm]) h₁
    | y :: a₂' =>
      rw [List.cons_append, List.cons_append] at heq
      have hxy := (List.cons.injEq _ _ _ _).mp heq
      have hrec := ih hxy.2 (fun hm => h₁ (by simp [hm])) (fun hm => h₂ (by simp [hm]))
      exact ⟨by rw [hxy.1, hrec.1], hrec.2⟩

theorem noSup_in_tail (addr t : PyStr) (haddr : '"' ∉ addr)
    (hsfx : ¬ (pys "upstream=") <:+ addr) (ht : '"' ∉ t) :
    containsSub upstreamLabelSep (addr ++ '"' :: t) = false := by
  cases hc : containsSub upstreamLabelSep (addr ++ '"' :: t) with
  | false => rfl
  | true =>
    exfalso
    obtain ⟨p, q, hpq⟩ := (containsSub_iff _ _).mp hc
    have hsup : upstreamLabelSep = pys "upstream=" ++ ['"'] := rfl
    rw [hsup] at hpq
    by_cases hp : '"' ∈ p
    · obtain ⟨p₁, p₂, rfl, hp₁⟩ := mem_split_first hp
      have heq : addr ++ '"' :: t = p₁ ++ '"' :: (p₂ ++ pys "upstream=" ++ '"' :: q) := by
        rw [hpq]; simp [List.append_assoc]
      have h := first_split_unique addr heq haddr hp₁
      have : '"' ∈ t := by
        rw [h.2]
        simp
      exact ht this
    · have heq : addr ++ '"' :: t = (p ++ pys "upstream=") ++ '"' :: q := by
        rw [hpq]; simp [List.append_assoc]
      have hq : '"' ∉ p ++ pys "upstream=" := by
        intro hmem
        rcases List.mem_append.mp hmem with hm | hm
        · exact hp hm
        · exact absurd hm (by decide)
      have h := first_split_unique addr heq haddr hq
      exact hsfx ⟨p, h.1.symm⟩

theorem parse_mkHealthLine (addr v : PyStr) (hw : WfGauge (addr, v)) :
    parseHealthLine (mkHealthLine addr v) = some (addr, pyFloatEqOne v) := by
  obtain ⟨haq, han, hasfx, hv, hvw, hvq, hvn, hvp⟩ := hw
  dsimp only at haq han hasfx hv hvw hvq hvn hvp
  have hquote : pys "\"\x7d " = '"' :: '\x7d' :: [' '] := rfl
  have hB : mkHealthLine addr v =
      healthGaugeHead ++ upstreamLabelSep ++ (addr ++ '"' :: ('\x7d' :: ' ' :: v)) := by
    rw [mkHealthLine, hquote]
    simp [List.append_assoc]
  have htq : '"' ∉ ('\x7d' :: ' ' :: v) := by
    intro hm
    rcases List.mem_cons.mp hm with h | h
    · exact absurd h.symm (by decide)
    rcases List.mem_cons.mp h with h' | h'
    · exact absurd h'.symm (by decide)
    · exact hvq h'
  have hnosup : containsSub upstreamLabelSep (addr ++ '"' :: ('\x7d' :: ' ' :: v)) = false :=
    noSup_in_tail addr _ haq hasfx htq
  have hsplit1 : pysplit upstreamLabelSep (mkHealthLine addr v) =
      healthGaugeHead :: pysplit upstreamLabelSep (addr ++ '"' :: ('\x7d' :: ' ' :: v)) := by
    rw [hB]
    exact pysplit_append _ (by decide) healthGaugeHead (noEarly_head _)
  have hsplit2 : pysplit upstreamLabelSep (addr ++ '"' :: ('\x7d' :: ' ' :: v)) =
      [addr ++ '"' :: ('\x7d' :: ' ' :: v)] :=
    pysplit_of_not_contains (by decide) hnosup
  have hget : (pysplit upstreamLabelSep (mkHealthLine addr v)).get? 1 =
      some (addr ++ '"' :: ('\x7d' :: ' ' :: v)) := by
    rw [hsplit1, hsplit2]
    rfl
  have haddrsplit : pysplit (pys "\"") (addr ++ '"' :: ('\x7d' :: ' ' :: v)) =
      addr :: pysplit (pys "\"") ('\x7d' :: ' ' :: v) := by
    have : addr ++ '"' :: ('\x7d' :: ' ' :: v) =
        addr ++ pys "\"" ++ ('\x7d' :: ' ' :: v) := by simp [List.append_assoc]; rfl
    rw [this]
    exact pysplit_append _ (by decide) addr (noEarly_quotefree _ addr haq)
  have hX : mkHealthLine addr v =
      (healthGaugeHead ++ upstreamLabelSep ++ addr ++ ['"', '\x7d']) ++ ' ' :: v := by
    rw [mkHealthLine, hquote]
    simp [List.append_assoc]
  have hlast : (splitWs (mkHealthLine addr v)).getLast? = some v := by
    rw [hX, splitWs_append_token _ v hv hvw, List.getLast?_concat]
  have hpre : healthGaugeHead.isPrefixOf (mkHealthLine addr v) = true := by
    rw [List.isPrefixOf_iff_prefix, hB]
    exact ⟨_, by rw [List.append_assoc]⟩
  obtain ⟨q, hq⟩ := Option.isSome_iff_exists.mp hvp
  obtain ⟨n, k⟩ := q
  have hpf : pyFloatEqOne v = decide (n = (10 : Int) ^ k) := by
    unfold pyFloatEqOne
    rw [hq]
  rw [parseHealthLine, if_pos hpre]
  simp only [hget, haddrsplit, hlast, hq, List.headD_cons, hpf]

theorem foldl_ext_mem {α β : Type} (f g : β → α → β) :
    ∀ (l : List α) (init : β), (∀ acc, ∀ x ∈ l, f acc x = g acc x) →
      l.foldl f init = l.foldl g init := by
  intro l
  induction l with
  | nil => intro _ _; rfl
  | cons x l' ih =>
    intro init h
    rw [List.foldl_cons, List.foldl_cons, h init x (by simp)]
    exact ih _ (fun acc y hy => h acc y (by simp [hy]))

theorem mkHealthLine_ne_nil (a v : PyStr) : mkHealthLine a v ≠ [] := by
  rw [mkHealthLine]
  simp [healthGaugeHead, pys]

theorem newline_not_mem_mkHealthLine (a v : PyStr) (ha : '\n' ∉ a) (hv : '\n' ∉ v) :
    '\n' ∉ mkHealthLine a v := by
  rw [mkHealthLine]
  intro hm
  rcases List.mem_append.mp hm with hm | hm
  rcases List.mem_append.mp hm with hm | hm
  rcases List.mem_append.mp hm with hm | hm
  rcases List.mem_append.mp hm with hm | hm
  · exact absurd hm (by decide)
  · exact absurd hm (by decide)
  · exact ha hm
  · exact absurd hm (by decide)
  · exact hv hm

theorem health_map_mkMetricsText (gauges : List (PyStr × PyStr))
    (hw : ∀ g ∈ gauges, WfGauge g) :
    health_map (mkMetricsText gauges) =
      gauges.foldl (fun m g => dinsert m g.1 (pyFloatEqOne g.2)) [] := by
  have hlines : splitLinesCL (mkMetricsText gauges) =
      gauges.map (fun g => mkHealthLine g.1 g.2) := by
    rw [mkMetricsText]
    apply splitLines_interjoin
    intro l hl
    obtain ⟨g, hg, rfl⟩ := List.mem_map.mp hl
    obtain ⟨_, han, _, _, _, _, hvn, _⟩ := hw g hg
    exact ⟨mkHealthLine_ne_nil _ _, newline_not_mem_mkHealthLine _ _ han hvn⟩
  rw [health_map, hlines, List.foldl_map]
  apply foldl_ext_mem
  intro acc g hg
  rw [parse_mkHealthLine g.1 g.2 (by rw [show ((g.1, g.2) : PyStr × PyStr) = g from rfl]; exact hw g hg)]

/-! ## Lemmas about `pyreplace` and `sock_file` -/

theorem pyreplace_of_not_contains {sep : PyStr} (r : PyStr) (hsep : sep ≠ [])
    {s : PyStr} (h : containsSub sep s = false) : pyreplace sep r s = s := by
  rw [pyreplace, pysplit_of_not_contains hsep h]
  rfl

theorem pyreplace_head {sep : PyStr} (r : PyStr) (hsep : sep ≠ [])
    {s : PyStr} (h : containsSub sep s = false) :
    pyreplace sep r (sep ++ s) = r ++ s := by
  rw [pyreplace]
  have h1 : pysplit sep (sep ++ s) = [] :: pysplit sep s := by
    have := @pysplit_append sep s hsep []
      (fun a₂ ha hne => absurd (List.suffix_nil.mp ha) hne)
    simpa using this
  rw [h1, pysplit_of_not_contains hsep h]
  rfl

theorem not_contains_unixSlashSlash (s : PyStr) (h : containsSub (pys "unix/") s = false) :
    containsSub (pys "unix//") s = false := by
  cases hc : containsSub (pys "unix//") s with
  | false => rfl
  | true =>
    exfalso
    obtain ⟨p, q, hpq⟩ := (containsSub_iff _ _).mp hc
    have hs : s = p ++ pys "unix/" ++ ('/' :: q) := by
      rw [hpq]
      simp [List.append_assoc]
      rfl
    have : containsSub (pys "unix/") s = true := (containsSub_iff _ _).mpr ⟨p, '/' :: q, hs⟩
    rw [h] at this
    exact Bool.false_ne_true this

theorem sock_file_no_unix (s : PyStr) (h : containsSub (pys "unix/") s = false) :
    sock_file s = s := by
  rw [sock_file, pyreplace_of_not_contains _ (by decide) h,
    pyreplace_of_not_contains _ (by decide) (not_contains_unixSlashSlash s h)]

theorem sock_file_unix (s : PyStr) (h : containsSub (pys "unix/") s = false) :
    sock_file (pys "unix/" ++ s) = s := by
  rw [sock_file, pyreplace_head _ (by decide) h, List.nil_append,
    pyreplace_of_not_contains _ (by decide) (not_contains_unixSlashSlash s h)]

/-! ## Lemmas about `selectSock` -/

theorem foldl_overwrite_dial :
    ∀ (us : List DialUpstream) (s : PyStr),
      us.foldl (fun _ u => u.dial.getD []) s =
        match us.getLast? with
        | none => s
        | some u => u.dial.getD [] := by
  intro us
  induction us with
  | nil => intro s; rfl
  | cons u us' ih =>
    intro s
    rw [List.foldl_cons, ih]
    match us' with
    | [] => rfl
    | w :: ws =>
      rw [List.getLast?_cons_cons]
      rw [List.getLast?_eq_getLast (w :: ws) (by simp)]

theorem selectSock_foldl :
    ∀ (hs : List Handler) (s : PyStr),
      hs.foldl (fun s h => (h.upstreams.getD []).foldl (fun _ u => u.dial.getD []) s) s =
        match ((hs.map (fun h => h.upstreams.getD [])).flatten).getLast? with
        | none => s
        | some u => u.dial.getD [] := by
  intro hs
  induction hs with
  | nil => intro s; rfl
  | cons h hs' ih =>
    intro s
    rw [List.foldl_cons, ih, foldl_overwrite_dial]
    rw [List.map_cons, List.flatten_cons]
    cases hl : ((hs'.map (fun h => h.upstreams.getD [])).flatten).getLast? with
    | some u =>
      rw [List.getLast?_append_of_ne_nil _ (by
        intro hnil
        rw [hnil] at hl
        exact Option.noConfusion hl), hl]
    | none =>
      have hnil : (hs'.map (fun h => h.upstreams.getD [])).flatten = [] := by
        cases hll : (hs'.map (fun h => h.upstreams.getD [])).flatten with
        | nil => rfl
        | cons a l =>
          rw [hll] at hl
          rcases List.getLast?_eq_getLast (a :: l) (by simp) with h'
          rw [h'] at hl
          exact Option.noConfusion hl
      rw [hnil, List.append_nil]

theorem selectSock_eq (route : Route) :
    selectSock route =
      match (((route.handle.getD []).map (fun h => h.upstreams.getD [])).flatten).getLast? with
      | none => []
      | some u => u.dial.getD [] := by
  rw [selectSock, selectSock_foldl]

theorem selectSock_of_no_dial (route : Route)
    (h : ∀ hd ∈ route.handle.getD [], ∀ u ∈ hd.upstreams.getD [], u.dial = none) :
    selectSock route = [] := by
  rw [selectSock_eq]
  cases hl : (((route.handle.getD []).map (fun h => h.upstreams.getD [])).flatten).getLast? with
  | none => rfl
  | some u =>
    have hmem : u ∈ ((route.handle.getD []).map (fun h => h.upstreams.getD [])).flatten :=
      List.mem_of_mem_getLast? hl
    obtain ⟨l, hlmem, hul⟩ := List.mem_flatten.mp hmem
    obtain ⟨hd, hhd, rfl⟩ := List.mem_map.mp hlmem
    show u.dial.getD [] = []
    rw [h hd hhd u hul]
    rfl

/-! ## Lemmas about `buildUpstreamMap`, `buildService` and `get_status` -/

theorem buildUpstreamMap_ok_of_addresses :
    ∀ (us : List UpstreamRec) (m : List (PyStr × UpstreamRec)),
      (∀ u ∈ us, u.address.isSome = true) →
      ∃ m', us.foldlM
          (fun m u =>
            match u.address with
            | none => Except.error PyErr.keyError
            | some a => Except.ok (dinsert m a u))
          m = Except.ok m' := by
  intro us
  induction us with
  | nil => intro m _; exact ⟨m, rfl⟩
  | cons u us' ih =>
    intro m h
    obtain ⟨a, ha⟩ := Option.isSome_iff_exists.mp (h u (by simp))
    obtain ⟨m', hm'⟩ := ih (dinsert m a u) (fun w hw => h w (by simp [hw]))
    refine ⟨m', ?_⟩
    rw [List.foldlM_cons, ha]
    exact hm'

theorem buildService_healthy (fs : List PyStr) (hm : List (PyStr × Bool))
    (um : List (PyStr × UpstreamRec)) (route : Route) :
    (buildService fs hm um route).healthy =
      (dlookup hm (selectSock route)).getD ((buildService fs hm um route).socket_exists) := rfl

theorem buildService_socket (fs : List PyStr) (hm : List (PyStr × Bool))
    (um : List (PyStr × UpstreamRec)) (route : Route) :
    (buildService fs hm um route).socket = sock_file (selectSock route) := rfl

theorem buildService_socket_exists (fs : List PyStr) (hm : List (PyStr × Bool))
    (um : List (PyStr × UpstreamRec)) (route : Route) :
    (buildService fs hm um route).socket_exists =
      osPathExists fs (sock_file (selectSock route)) := rfl

theorem get_status_ok_elim (env : Env) (agg : AggregatedStatus)
    (um : List (PyStr × UpstreamRec)) (h : get_status env = .ok agg)
    (hum : buildUpstreamMap (env.upstreams.getD []) = .ok um) :
    agg = { services := (env.routes.getD []).map
              (buildService env.fs (health_map (env.metrics_text.getD [])) um)
            tls_domains := tlsDomains env.tls_config
            dns := dnsOut env.dyn_dns } := by
  rw [get_status] at h
  simp only [hum] at h
  exact (Except.ok.injEq _ _).mp h |>.symm

/-! ## The claims -/

/-- C1: For every route processed in one reconciliation pass, the output
record's `healthy` field equals the boolean stored in the metrics health map
under the route's raw dial-address string when that key is present, and
otherwise equals the filesystem-existence probe result (`socket_exists`);
`healthy` is a `Bool` by construction, never absent. -/
theorem c1_healthy_two_tier (env : Env) (agg : AggregatedStatus)
    (um : List (PyStr × UpstreamRec)) (r : Route)
    (h : get_status env = .ok agg)
    (hum : buildUpstreamMap (env.upstreams.getD []) = .ok um) :
    agg.services = (env.routes.getD []).map
        (buildService env.fs (health_map (env.metrics_text.getD [])) um) ∧
    (buildService env.fs (health_map (env.metrics_text.getD [])) um r).healthy =
      (dlookup (health_map (env.metrics_text.getD [])) (selectSock r)).getD
        ((buildService env.fs (health_map (env.metrics_text.getD [])) um r).socket_exists) := by
  refine ⟨?_, buildService_healthy _ _ _ _⟩
  rw [get_status_ok_elim env agg um h hum]

theorem c1_healthy_two_tier_witness :
    aggApi.services = (envApi.routes.getD []).map
        (buildService envApi.fs (health_map (envApi.metrics_text.getD [])) []) ∧
    (buildService envApi.fs (health_map (envApi.metrics_text.getD [])) [] routeApi).healthy =
      (dlookup (health_map (envApi.metrics_text.getD [])) (selectSock routeApi)).getD
        ((buildService envApi.fs (health_map (envApi.metrics_text.getD [])) []
          routeApi).socket_exists) :=
  c1_healthy_two_tier envApi aggApi [] routeApi rfl rfl

/-- C2 counterexample: the claim says the status computation never raises
for any combination of entries with missing sub-fields, but an upstream
record without an `address` field hits the one defaultless subscript
`u["address"]` (source line 99) and raises `KeyError`. -/
theorem c2_total_cex : get_status envNoAddress = .error .keyError := rfl

/-- C2 (amended): every lookup in the reconciler has a defined default
except the upstream indexer's `u["address"]` subscript; provided every
fetched upstream record carries an `address` field, `get_status` is total
(returns an aggregate for all inputs). -/
theorem c2_total_amended (env : Env)
    (h : ∀ u ∈ env.upstreams.getD [], u.address.isSome = true) :
    (get_status env).toOption.isSome = true := by
  obtain ⟨m', hm'⟩ := buildUpstreamMap_ok_of_addresses (env.upstreams.getD []) [] h
  rw [get_status]
  have hb : buildUpstreamMap (env.upstreams.getD []) = .ok m' := hm'
  simp only [hb]
  rfl

theorem c2_total_amended_witness : (get_status envApi).toOption.isSome = true :=
  c2_total_amended envApi (by decide)

/-- C3: when all five upstream fetches fail (each input `none`), the
reconciler returns the aggregate with empty services, empty TLS domains and
an all-default DNS object, without error, for any filesystem state. -/
theorem c3_empty_sources (fs : List PyStr) :
    get_status ⟨none, none, none, none, none, fs⟩ =
      .ok { services := [], tls_domains := [], dns := ⟨[], false, false⟩ } := rfl

/-- C4 counterexample: the claim says record ids are pairwise distinct even
when routes lack identifiers, but two routes without `@id` both produce the
placeholder id `unknown`. -/
theorem c4_unique_ids_cex :
    (get_status envTwoAnon).toOption.map (fun a => a.services.map (fun s => s.id)) =
      some [pys "unknown", pys "unknown"] ∧
    ¬ ([pys "unknown", pys "unknown"] : List PyStr).Nodup := by decide

/-- C4 (amended): the output ids are exactly the routes' `@id` values with
absent identifiers replaced by the placeholder `unknown`; they are pairwise
distinct whenever those values are (in particular not when two routes lack
an identifier). -/
theorem c4_unique_ids_amended (env : Env) (agg : AggregatedStatus)
    (um : List (PyStr × UpstreamRec)) (h : get_status env = .ok agg)
    (hum : buildUpstreamMap (env.upstreams.getD []) = .ok um) :
    agg.services.map (fun s => s.id) =
      (env.routes.getD []).map (fun r => r.atId.getD (pys "unknown")) ∧
    (((env.routes.getD []).map (fun r => r.atId.getD (pys "unknown"))).Nodup →
      (agg.services.map (fun s => s.id)).Nodup) := by
  have hs := get_status_ok_elim env agg um h hum
  have hids : agg.services.map (fun s => s.id) =
      (env.routes.getD []).map (fun r => r.atId.getD (pys "unknown")) := by
    rw [hs]
    simp only [List.map_map]
    rfl
  exact ⟨hids, fun hnd => hids ▸ hnd⟩

theorem c4_unique_ids_amended_witness :
    aggApi.services.map (fun s => s.id) =
      (envApi.routes.getD []).map (fun r => r.atId.getD (pys "unknown")) ∧
    (((envApi.routes.getD []).map (fun r => r.atId.getD (pys "unknown"))).Nodup →
      (aggApi.services.map (fun s => s.id)).Nodup) :=
  c4_unique_ids_amended envApi aggApi [] rfl rfl

/-- C5: the end-to-end scenario: one route `api` with host
`api.example.com` and backend dial `unix//tmp/caddy-dev/api.sock`, an empty
upstream-statistics list, no metrics, and the socket absent from the
filesystem, produces exactly the record `{id: api, hosts: [api.example.com],
socket: /tmp/caddy-dev/api.sock, socket_exists: false, healthy: false,
requests: 0, fails: 0}`. -/
theorem c5_end_to_end :
    get_status envApi =
      .ok { services := [svcApi], tls_domains := [], dns := ⟨[], false, false⟩ } := rfl

/-- C6 counterexample: `trickyMetricsText` is the single syntactically
well-formed gauge line
`caddy_reverse_proxy_upstreams_healthy{upstream="xupstream="} 1`, whose
upstream-address label value is `xupstream=` (quote-free, one line, numeric
value).  The claim requires one entry keyed by that address; instead the
parser splits on the second occurrence of `upstream="` formed by the
address's own tail and the closing quote, and records the line under the
truncated key `x`. -/
theorem c6_metrics_parser_cex :
    health_map trickyMetricsText = [(pys "x", true)] ∧
    (pys "xupstream=") ∉ (health_map trickyMetricsText).map Prod.fst := by decide

/-- C6 (amended): for well-formed metrics text whose addresses additionally
do not end in the substring `upstream=`, the parser output has pairwise
distinct keys, exactly the addresses of the gauge lines as keys, and maps
each address to `true` iff the numeric value of its last gauge line equals
1 (last occurrence wins). -/
theorem c6_metrics_parser_amended (gauges : List (PyStr × PyStr)) (a : PyStr)
    (hw : ∀ g ∈ gauges, WfGauge g) :
    ((health_map (mkMetricsText gauges)).map Prod.fst).Nodup ∧
    (a ∈ (health_map (mkMetricsText gauges)).map Prod.fst ↔ a ∈ gauges.map Prod.fst) ∧
    dlookup (health_map (mkMetricsText gauges)) a =
      (gauges.reverse.find? (fun g => decide (g.1 = a))).map (fun g => pyFloatEqOne g.2) := by
  rw [health_map_mkMetricsText gauges hw]
  have hfold : gauges.foldl (fun m g => dinsert m g.1 (pyFloatEqOne g.2)) [] =
      (gauges.map (fun g => (g.1, pyFloatEqOne g.2))).foldl
        (fun m p => dinsert m p.1 p.2) [] := by
    rw [List.foldl_map]
  rw [hfold]
  refine ⟨foldl_dinsert_nodup _ [] (by simp), ?_, ?_⟩
  · rw [foldl_dinsert_mem_keys]
    simp only [List.map_nil, List.not_mem_nil, false_or, List.map_map]
    exact Iff.rfl
  · rw [foldl_dinsert_lookup, dlookup_nil, Option.or_none, ← List.map_reverse,
      List.find?_map, Option.map_map]
    rfl

theorem c6_metrics_parser_amended_witness :
    ((health_map (mkMetricsText sampleGauges)).map Prod.fst).Nodup ∧
    (pys "u1" ∈ (health_map (mkMetricsText sampleGauges)).map Prod.fst ↔
      pys "u1" ∈ sampleGauges.map Prod.fst) ∧
    dlookup (health_map (mkMetricsText sampleGauges)) (pys "u1") =
      (sampleGauges.reverse.find? (fun g => decide (g.1 = pys "u1"))).map
        (fun g => pyFloatEqOne g.2) :=
  c6_metrics_parser_amended sampleGauges (pys "u1") (by decide)

/-- C7 counterexample: for the route whose second handler entry carries an
upstream without a `dial` field, the selected backend is the empty string,
not the last dial target encountered (`a`): every scanned upstream entry
overwrites the selection with `u.get("dial", "")`. -/
theorem c7_last_dial_cex :
    selectSock routeTrailingNoDial = [] ∧ pys "a" ≠ ([] : PyStr) := by decide

/-- C7 (amended): the selected backend is the `dial` value (default empty
string) of the final upstream entry across all handlers, in order —
so with two handler entries each declaring one dial target the second wins,
but an upstream entry without a `dial` field resets the selection to the
empty string even when an earlier dial target exists. -/
theorem c7_last_dial_amended (route rt2 : Route) (d₁ d₂ : PyStr)
    (h : rt2.handle = some [{ upstreams := some [{ dial := some d₁ }] },
                            { upstreams := some [{ dial := some d₂ }] }]) :
    selectSock route =
      (match (((route.handle.getD []).map (fun h => h.upstreams.getD [])).flatten).getLast? with
        | none => []
        | some u => u.dial.getD []) ∧
    selectSock rt2 = d₂ := by
  refine ⟨selectSock_eq route, ?_⟩
  rw [selectSock, h]
  rfl

theorem c7_last_dial_amended_witness :
    selectSock routeTrailingNoDial =
      (match (((routeTrailingNoDial.handle.getD []).map
          (fun h => h.upstreams.getD [])).flatten).getLast? with
        | none => []
        | some u => u.dial.getD []) ∧
    selectSock routeTwoDials = pys "b" :=
  c7_last_dial_amended routeTrailingNoDial routeTwoDials (pys "a") (pys "b") rfl

/-- C8 counterexample: the claim says a dial string without the leading
`unix/` transport prefix is left unchanged by the path normalisation, but
the source applies a global `str.replace`, so an interior occurrence of
`unix/` is deleted too: `aunix/b` becomes `ab`. -/
theorem c8_socket_rewrite_cex :
    sock_file (pys "aunix/b") = pys "ab" ∧ pys "ab" ≠ pys "aunix/b" := by decide

/-- C8 (amended): the path normalisation is a pair of global substring
replaces (`unix/` deleted, then `unix//` rewritten to `/`), not an anchored
prefix rewrite, so the claimed behaviour holds only in restricted form: on
dial strings in which `unix/` occurs nowhere except possibly as the leading
transport prefix — in particular the proxy's canonical
`unix//absolute-path` form — the normalisation is exactly the claimed
prefix rewrite (`unix/` followed by an occurrence-free `s` maps to `s`, and
an occurrence-free string is unchanged).  Strings with other occurrences of
`unix/` are in general altered (see the counterexample). -/
theorem c8_socket_rewrite_amended (s : PyStr)
    (h : containsSub (pys "unix/") s = false) :
    sock_file (pys "unix/" ++ s) = s ∧ sock_file s = s :=
  ⟨sock_file_unix s h, sock_file_no_unix s h⟩

theorem c8_socket_rewrite_amended_witness :
    sock_file (pys "unix/" ++ pys "/tmp/caddy-dev/api.sock") = pys "/tmp/caddy-dev/api.sock" ∧
    sock_file (pys "/tmp/caddy-dev/api.sock") = pys "/tmp/caddy-dev/api.sock" :=
  c8_socket_rewrite_amended (pys "/tmp/caddy-dev/api.sock") (by decide)

/-- C9: the derived `tls_domains` list is the explicit automate list when
that list is non-empty (absent collapses to empty), and otherwise the
concatenation, in policy order, of the `subjects` of all automation
policies, policies without subjects contributing nothing. -/
theorem c9_tls_preference (cfg : Option TlsConfig) :
    tlsDomains cfg =
      if automateOf cfg = [] then
        ((policiesOf cfg).map (fun p => p.subjects.getD [])).flatten
      else automateOf cfg := by
  rw [tlsDomains, pyOr]
  by_cases h : automateOf cfg = []
  · rw [if_pos (List.isEmpty_iff.mpr h), if_pos h]
  · rw [if_neg (fun hb => h (List.isEmpty_iff.mp hb)), if_neg h]

/-- C10: a route declaring no upstream dial target at all yields a record
with empty `socket`, `socket_exists = false` (the probe of the empty path
is false), and — when the health map has no entry keyed by the empty
string — `healthy = false`. -/
theorem c10_no_dial_defaults (fs : List PyStr) (hm : List (PyStr × Bool))
    (um : List (PyStr × UpstreamRec)) (route : Route)
    (hdial : ∀ hd ∈ route.handle.getD [], ∀ u ∈ hd.upstreams.getD [], u.dial = none)
    (hhm : dlookup hm [] = none) :
    (buildService fs hm um route).socket = [] ∧
    (buildService fs hm um route).socket_exists = false ∧
    (buildService fs hm um route).healthy = false := by
  have hsock : selectSock route = [] := selectSock_of_no_dial route hdial
  have h1 : (buildService fs hm um route).socket = [] := by
    rw [buildService_socket, hsock]
    rfl
  have h2 : (buildService fs hm um route).socket_exists = false := by
    rw [buildService_socket_exists, hsock]
    rfl
  refine ⟨h1, h2, ?_⟩
  rw [buildService_healthy, hsock, hhm, Option.getD_none]
  exact h2

theorem c10_no_dial_defaults_witness :
    (buildService [] [] [] routeEmpty).socket = [] ∧
    (buildService [] [] [] routeEmpty).socket_exists = false ∧
    (buildService [] [] [] routeEmpty).healthy = false :=
  c10_no_dial_defaults [] [] [] routeEmpty (by decide) rfl
